import Mathlib

/-!
Verification of the KGEModel core (codes/model.py): scoring functions,
training-step loss assembly, and the evaluation (test_step) ranking protocol.

Tensors of floating point numbers are modelled as lists of exact numbers:
rationals where only ordered-field arithmetic occurs, reals where the source
uses transcendental functions (cos, sin, exp, log, p-norms).
-/

set_option maxHeartbeats 1000000

/-- Elementwise sum along the last axis after an elementwise product, as in
`score.sum(dim = 2)` applied to a single embedding row. -/
def dotSum (a b : List ℚ) : ℚ :=
  (List.zipWith (· * ·) a b).sum

/-- First chunk of `torch.chunk(x, 2, dim)` on one row: the first
`ceil(n/2)` entries. -/
def chunkFst (l : List ℚ) : List ℚ :=
  l.take ((l.length + 1) / 2)

/-- Second chunk of `torch.chunk(x, 2, dim)` on one row. -/
def chunkSnd (l : List ℚ) : List ℚ :=
  l.drop ((l.length + 1) / 2)

/-- DistMult scoring function from `KGEModel.DistMult`, on a single
(head, relation, tail) triple of embedding rows: in head-batch mode the
product is assembled as `head * (relation * tail)`, otherwise as
`(head * relation) * tail`, then summed over the embedding axis. -/
def DistMult (head relation tail : List ℚ) (mode : String) : ℚ :=
  if mode = "head-batch" then
    (List.zipWith (· * ·) head (List.zipWith (· * ·) relation tail)).sum
  else
    (List.zipWith (· * ·) (List.zipWith (· * ·) head relation) tail).sum

/-- ComplEx scoring function from `KGEModel.ComplEx`, on a single triple of
embedding rows. Each row is chunked into a real and an imaginary half; the
head-batch branch multiplies relation with tail first and then with head,
the other branch multiplies head with relation first and then with tail. -/
def ComplEx (head relation tail : List ℚ) (mode : String) : ℚ :=
  let reHead := chunkFst head
  let imHead := chunkSnd head
  let reRelation := chunkFst relation
  let imRelation := chunkSnd relation
  let reTail := chunkFst tail
  let imTail := chunkSnd tail
  if mode = "head-batch" then
    let reScore := List.zipWith (· + ·) (List.zipWith (· * ·) reRelation reTail)
      (List.zipWith (· * ·) imRelation imTail)
    let imScore := List.zipWith (· - ·) (List.zipWith (· * ·) reRelation imTail)
      (List.zipWith (· * ·) imRelation reTail)
    (List.zipWith (· + ·) (List.zipWith (· * ·) reHead reScore)
      (List.zipWith (· * ·) imHead imScore)).sum
  else
    let reScore := List.zipWith (· - ·) (List.zipWith (· * ·) reHead reRelation)
      (List.zipWith (· * ·) imHead imRelation)
    let imScore := List.zipWith (· + ·) (List.zipWith (· * ·) reHead imRelation)
      (List.zipWith (· * ·) imHead reRelation)
    (List.zipWith (· + ·) (List.zipWith (· * ·) reScore reTail)
      (List.zipWith (· * ·) imScore imTail)).sum

/-- Real-valued variant of `chunkFst`, used by RotatE. -/
noncomputable def chunkFstR (l : List ℝ) : List ℝ :=
  l.take ((l.length + 1) / 2)

/-- Real-valued variant of `chunkSnd`, used by RotatE. -/
noncomputable def chunkSndR (l : List ℝ) : List ℝ :=
  l.drop ((l.length + 1) / 2)

/-- Adds the constant `c` to the component at position `i` of a list,
leaving every other component unchanged (out-of-range `i` is a no-op). -/
def addAt (c : ℝ) : ℕ → List ℝ → List ℝ
  | _, [] => []
  | 0, x :: xs => (x + c) :: xs
  | n + 1, x :: xs => x :: addAt c n xs

/-- RotatE scoring function from `KGEModel.RotatE`, on a single triple of
embedding rows. Head and tail are chunked into real and imaginary halves;
the raw relation row is converted to phases by dividing by
`embedding_range / pi`; the stacked (re, im) residual is reduced by the
2-norm over the stack axis and summed, and subtracted from gamma. -/
noncomputable def RotatE (gamma embeddingRange : ℝ) (head relation tail : List ℝ)
    (mode : String) : ℝ :=
  let reHead := chunkFstR head
  let imHead := chunkSndR head
  let reTail := chunkFstR tail
  let imTail := chunkSndR tail
  let phaseRelation := relation.map (fun r => r / (embeddingRange / Real.pi))
  let reRelation := phaseRelation.map Real.cos
  let imRelation := phaseRelation.map Real.sin
  let reScore :=
    if mode = "head-batch" then
      List.zipWith (· - ·)
        (List.zipWith (· + ·) (List.zipWith (· * ·) reRelation reTail)
          (List.zipWith (· * ·) imRelation imTail)) reHead
    else
      List.zipWith (· - ·)
        (List.zipWith (· - ·) (List.zipWith (· * ·) reHead reRelation)
          (List.zipWith (· * ·) imHead imRelation)) reTail
  let imScore :=
    if mode = "head-batch" then
      List.zipWith (· - ·)
        (List.zipWith (· - ·) (List.zipWith (· * ·) reRelation imTail)
          (List.zipWith (· * ·) imRelation reTail)) imHead
    else
      List.zipWith (· - ·)
        (List.zipWith (· + ·) (List.zipWith (· * ·) reHead imRelation)
          (List.zipWith (· * ·) imHead reRelation)) imTail
  gamma - (List.zipWith (fun a b => Real.sqrt (a ^ 2 + b ^ 2)) reScore imScore).sum

/-- Sort key used by the ranking protocol: `score.getD i 0` is the score of
candidate entity `i` in the current row (every index produced by the ranking
is in range, so the default is never observed there). -/
def keyOf (score : List ℚ) (i : ℕ) : ℚ :=
  score.getD i 0

/-- Total order on candidate entity ids used to model
`torch.argsort(score, dim=1, descending=True)`: larger score first, and
ties between equal scores resolved by ascending entity id. -/
def rankLE (score : List ℚ) (i j : ℕ) : Prop :=
  keyOf score j < keyOf score i ∨ (keyOf score i = keyOf score j ∧ i ≤ j)

instance (score : List ℚ) : DecidableRel (rankLE score) := fun i j => by
  unfold rankLE
  infer_instance

instance (score : List ℚ) : IsTotal ℕ (rankLE score) where
  total i j := by
    rcases lt_trichotomy (keyOf score i) (keyOf score j) with h | h | h
    · exact Or.inr (Or.inl h)
    · rcases Nat.le_total i j with hij | hij
      · exact Or.inl (Or.inr ⟨h, hij⟩)
      · exact Or.inr (Or.inr ⟨h.symm, hij⟩)
    · exact Or.inl (Or.inl h)

instance (score : List ℚ) : IsTrans ℕ (rankLE score) where
  trans i j k hij hjk := by
    rcases hij with h1 | ⟨e1, l1⟩
    · rcases hjk with h2 | ⟨e2, _⟩
      · exact Or.inl (h2.trans h1)
      · exact Or.inl (e2 ▸ h1)
    · rcases hjk with h2 | ⟨e2, l2⟩
      · exact Or.inl (e1 ▸ h2)
      · exact Or.inr ⟨e1.trans e2, l1.trans l2⟩

/-- Model of `torch.argsort(score, dim = 1, descending = True)` on one row:
a deterministic permutation of the candidate ids `0, ..., n-1` ordered by
descending score; the order between equal scores is not specified by the
library, and is modelled here as ascending entity id. -/
def argsortDesc (score : List ℚ) : List ℕ :=
  List.insertionSort (rankLE score) (List.range score.length)

/-- The full contract the source can rely on for
`torch.argsort(score, dim = 1, descending = True)` without `stable = True`:
the result is a permutation of all candidate entity ids `0, ..., n-1`,
ordered by non-increasing score; the order between equal scores is left
unspecified by the library. Any list satisfying this predicate is a
possible argsort output; `argsortDesc` is one of them. -/
def isDescArgsort (score : List ℚ) (p : List ℕ) : Prop :=
  List.Perm p (List.range score.length) ∧
    p.Pairwise (fun i j => keyOf score j ≤ keyOf score i)

/-- Model of `(argsort[i, :] == positive_arg[i]).nonzero()`: the ascending
list of positions of `l` holding the entity id `e`. -/
def matchPositions : List ℕ → ℕ → List ℕ
  | [], _ => []
  | x :: xs, e =>
    (if x = e then [0] else []) ++ (matchPositions xs e).map (· + 1)

/-- Per-example metric record appended to `logs` in `test_step`. -/
structure MetricLog where
  mrr : ℚ
  mr : ℚ
  h1 : ℚ
  h3 : ℚ
  h10 : ℚ
deriving DecidableEq, Repr

/-- Builds the per-example metric record of `test_step` from the 1-indexed
ranking: reciprocal rank, raw rank, and the three hit indicators. -/
def mkLog (ranking : ℕ) : MetricLog :=
  ⟨1 / (ranking : ℚ), (ranking : ℚ),
    if ranking ≤ 1 then 1 else 0,
    if ranking ≤ 3 then 1 else 0,
    if ranking ≤ 10 then 1 else 0⟩

/-- One evaluation example: the score row over all candidate entities with
`filter_bias` already added, and the true entity id (`positive_arg[i]`). -/
structure EvalExample where
  score : List ℚ
  target : ℕ
deriving DecidableEq, Repr

/-- Models lines 484-488 of model.py for one example: the positions of the
true entity in the argsort row; the assertion `ranking.size(0) == 1`
requires exactly one such position (`none` models an assertion failure),
and `1 + ranking.item()` is the 1-indexed rank. -/
def rankingItem (ex : EvalExample) : Option ℕ :=
  match matchPositions (argsortDesc ex.score) ex.target with
  | [p] => some (1 + p)
  | _ => none

/-- Models the metric-log accumulation loop of `test_step` over a list of
examples: append `mkLog` of each 1-indexed rank, aborting if the uniqueness
assertion fails on any example. -/
def evalLogs : List EvalExample → Option (List MetricLog)
  | [] => some []
  | ex :: rest =>
    match rankingItem ex, evalLogs rest with
    | some rk, some ls => some (mkLog rk :: ls)
    | _, _ => none

/-- Aggregate metrics returned by `test_step`. -/
structure Metrics where
  mrr : ℚ
  mr : ℚ
  h1 : ℚ
  h3 : ℚ
  h10 : ℚ
deriving DecidableEq, Repr

/-- Models the final aggregation loop of `test_step`:
`metrics[metric] = sum([log[metric] for log in logs]) / len(logs)`. -/
def aggregateLogs (logs : List MetricLog) : Metrics :=
  ⟨(logs.map MetricLog.mrr).sum / logs.length,
    (logs.map MetricLog.mr).sum / logs.length,
    (logs.map MetricLog.h1).sum / logs.length,
    (logs.map MetricLog.h3).sum / logs.length,
    (logs.map MetricLog.h10).sum / logs.length⟩

/-- Models the metric part of `test_step`: the head-batch examples and then
the tail-batch examples are processed into one shared `logs` list, which is
then aggregated; an empty `logs` (or a failed uniqueness assertion) is an
error, modelled as `none`. -/
def testStepMetrics (headExamples tailExamples : List EvalExample) : Option Metrics :=
  match evalLogs (headExamples ++ tailExamples) with
  | some logs => if logs.isEmpty then none else some (aggregateLogs logs)
  | none => none

/-- Claimed 1-indexed rank of the true entity: one plus its position in the
descending sort of all candidate entities. -/
def exampleRank (ex : EvalExample) : ℕ :=
  1 + (argsortDesc ex.score).indexOf ex.target

/-- Modelled from the claim text for comparison with `testStepMetrics`: each
aggregate metric is the unweighted arithmetic mean, pooled over all examples
of both corruption directions, of the per-example values 1/rank, rank, and
the indicators rank at most 1, 3, 10. -/
def specAggregate (exs : List EvalExample) : Metrics :=
  ⟨(exs.map (fun ex => 1 / (exampleRank ex : ℚ))).sum / exs.length,
    (exs.map (fun ex => (exampleRank ex : ℚ))).sum / exs.length,
    (exs.map (fun ex => if exampleRank ex ≤ 1 then (1 : ℚ) else 0)).sum / exs.length,
    (exs.map (fun ex => if exampleRank ex ≤ 3 then (1 : ℚ) else 0)).sum / exs.length,
    (exs.map (fun ex => if exampleRank ex ≤ 10 then (1 : ℚ) else 0)).sum / exs.length⟩

/-- Arithmetic mean of a list, `tensor.mean()`. -/
def listMean {K : Type} [DivisionRing K] (l : List K) : K :=
  l.sum / l.length

/-- Weighted dot product `(w * s).sum()`. -/
def weightedSum {K : Type} [DivisionRing K] (w s : List K) : K :=
  (List.zipWith (· * ·) w s).sum

/-- Models lines 383-390 of `train_step`: from the per-example positive
scores `ps` (already passed through logsigmoid), the per-example reduced
negative scores `ns`, and the subsampling weights `w`, assemble the final
loss. Under `uni_weight` each term is the plain mean of the scores
(with no negation, exactly as in the source); otherwise each term is the
negated subsampling-weighted sum divided by the weight sum. The loss is the
average of the two terms. -/
def lossAssembly {K : Type} [Field K] (uniWeight : Bool) (w ps ns : List K) : K :=
  let positiveSampleLoss := if uniWeight then listMean ps else -(weightedSum w ps) / w.sum
  let negativeSampleLoss := if uniWeight then listMean ns else -(weightedSum w ns) / w.sum
  (positiveSampleLoss + negativeSampleLoss) / 2

/-- Sum of the cubed absolute values of all entries of a table, the inner
reduction of `tensor.norm(p = 3)`. -/
def norm3Sum (t : List (List ℝ)) : ℝ :=
  (t.map (fun row => (row.map (fun x => |x| ^ 3)).sum)).sum

/-- Model of `tensor.norm(p = 3)` on a full table: the cube root (real
1/3 power) of the sum of cubed absolute values of all entries. -/
noncomputable def tableNorm3 (t : List (List ℝ)) : ℝ :=
  norm3Sum t ^ ((1 : ℝ) / 3)

/-- Model of `tensor.norm(p = 3)` applied to a scalar (0-dimensional)
tensor, as in the second norm of
`model.relation_embedding.norm(p = 3).norm(p = 3)`. -/
noncomputable def scalarNorm3 (x : ℝ) : ℝ :=
  (|x| ^ 3) ^ ((1 : ℝ) / 3)

/-- Models lines 392-398 of `train_step`: when the regularization
coefficient is nonzero the loss gains
`coefficient * (entity.norm(3) ** 3 + relation.norm(3).norm(3) ** 3)`,
otherwise the loss is returned unchanged. -/
noncomputable def trainStepLoss (uniWeight : Bool) (w ps ns : List ℝ)
    (regularization : ℝ) (entityEmbedding relationEmbedding : List (List ℝ)) : ℝ :=
  if regularization ≠ 0 then
    lossAssembly uniWeight w ps ns +
      regularization *
        (tableNorm3 entityEmbedding ^ 3 + scalarNorm3 (tableNorm3 relationEmbedding) ^ 3)
  else
    lossAssembly uniWeight w ps ns

/-- Model of `F.logsigmoid`: log of the logistic sigmoid (the exact
function; the numerically stable evaluation order of the library computes
the same real value). -/
noncomputable def logsigmoid (x : ℝ) : ℝ :=
  Real.log (1 / (1 + Real.exp (-x)))

/-- Model of `F.softmax(row)` along the last axis of one row. -/
noncomputable def softmaxList (row : List ℝ) : List ℝ :=
  row.map (fun x => Real.exp x / (row.map Real.exp).sum)

/-- Model of `F.softmax(M, dim = 1)` on a matrix: row-wise softmax. -/
noncomputable def softmaxDim1 (m : List (List ℝ)) : List (List ℝ) :=
  m.map softmaxList

/-- Elementwise map over a matrix. -/
def matMap (f : ℝ → ℝ) (m : List (List ℝ)) : List (List ℝ) :=
  m.map (List.map f)

/-- Elementwise (Hadamard) product of two matrices. -/
def matMul (a b : List (List ℝ)) : List (List ℝ) :=
  List.zipWith (List.zipWith (· * ·)) a b

/-- Model of `tensor.detach()`: the identity on values (detaching only cuts
the autodiff graph so that no gradient flows through the detached value; the
value itself is unchanged). -/
def detachMat (m : List (List ℝ)) : List (List ℝ) :=
  m

/-- Model of `M.sum(dim = 1)`. -/
def sumDim1 (m : List (List ℝ)) : List ℝ :=
  m.map List.sum

/-- Model of `M.mean(dim = 1)`. -/
noncomputable def meanDim1 (m : List (List ℝ)) : List ℝ :=
  m.map (fun row => row.sum / row.length)

/-- Models lines 372-377 of `train_step`: the reduction of the negative
score matrix to one scalar per example. With adversarial sampling the
detached row softmax of `score * temperature` weights
`logsigmoid(-score)` and the products are summed along the negative axis;
without it, `logsigmoid(-score)` is averaged along the negative axis. -/
noncomputable def negScoreReduce (adversarial : Bool) (temperature : ℝ)
    (negativeScore : List (List ℝ)) : List ℝ :=
  if adversarial then
    sumDim1 (matMul (detachMat (softmaxDim1 (matMap (· * temperature) negativeScore)))
      (matMap logsigmoid (matMap Neg.neg negativeScore)))
  else
    meanDim1 (matMap logsigmoid (matMap Neg.neg negativeScore))

/-- The seven supported model identifiers of `KGEModel.__init__`. -/
def supportedModels : List String :=
  ["TATransE", "TransE", "TADistMult", "DistMult", "ComplEx", "RotatE", "pRotatE"]

/-- Models the validation performed at the end of `KGEModel.__init__`
(lines 74-81): unsupported model name, RotatE without double entity
embeddings or with double relation embeddings, and ComplEx without both
double embeddings each raise a ValueError, in that order; otherwise
construction succeeds. The double_tem_embedding flag takes no part in any
check. -/
def initCheck (modelName : String) (doubleEntityEmbedding doubleRelationEmbedding
    _doubleTemEmbedding : Bool) : Except String Unit :=
  if modelName ∉ supportedModels then
    Except.error ("model " ++ modelName ++ " not supported")
  else if modelName = "RotatE" ∧ (doubleEntityEmbedding = false ∨ doubleRelationEmbedding = true) then
    Except.error "RotatE should use double_entity_embedding"
  else if modelName = "ComplEx" ∧ (doubleEntityEmbedding = false ∨ doubleRelationEmbedding = false) then
    Except.error "ComplEx should use double_entity_embedding and double_relation_embedding"
  else
    Except.ok ()

/-- Tests whether a construction attempt raised a ValueError. -/
def isError : Except String Unit → Bool
  | Except.error _ => true
  | Except.ok _ => false

/-- Python runtime values that reach the scoring call of `test_step`:
integer id tensors, tuples, strings, and None. -/
inductive PyVal where
  | tensor (data : List (List ℤ))
  | pair (fst snd : PyVal)
  | str (s : String)
  | pynone
deriving DecidableEq, Repr

/-- Model of the attribute access `v.size(0)`: defined for tensors, an
AttributeError for tuples, strings and None. -/
def PyVal.size0 : PyVal → Except String ℕ
  | .tensor d => Except.ok d.length
  | .pair _ _ => Except.error "AttributeError: tuple object has no attribute size"
  | .str _ => Except.error "AttributeError: str object has no attribute size"
  | .pynone => Except.error "AttributeError: NoneType object has no attribute size"

/-- Model of using a Python value as an integer tensor (indexing or
`index_select`): a TypeError for non-tensors. -/
def PyVal.asTensor : PyVal → Except String (List (List ℤ))
  | .tensor d => Except.ok d
  | .pair _ _ => Except.error "TypeError: tuple is not a tensor"
  | .str _ => Except.error "TypeError: str is not a tensor"
  | .pynone => Except.error "TypeError: NoneType is not a tensor"

/-- Models the mode dispatch and operand extraction of `KGEModel.forward`
(lines 83-225), with its Python signature
`forward(sample_triple, sample_tem, negative_sample = None, mode = single)`.
Each branch performs the tensor accesses of the source in order
(`sample_triple.size(0)` first in single mode, `negative_sample.size(0)`
first in the two batch modes, the loop over `sample_tem.size(0)` after the
triple accesses); an unknown mode raises a ValueError. The per-model scoring
applied after extraction is abstracted as `scoreOf` (the dispatch target
includes the LSTM encoder, which lives outside the verified file), since
every claim about this function is settled before scoring is reached. -/
def forwardModel
    (scoreOf : String → List (List ℤ) → List (List ℤ) → List (List ℤ) → List (List ℝ))
    (sampleTriple sampleTem negativeSample : PyVal) (mode : String) :
    Except String (List (List ℝ)) :=
  if mode = "single" then do
    let _ ← sampleTriple.size0
    let tri ← sampleTriple.asTensor
    let _ ← sampleTem.size0
    let tem ← sampleTem.asTensor
    Except.ok (scoreOf "single" tri tem [])
  else if mode = "head-batch" then do
    let _ ← negativeSample.size0
    let neg ← negativeSample.asTensor
    let tri ← sampleTriple.asTensor
    let _ ← sampleTem.size0
    let tem ← sampleTem.asTensor
    Except.ok (scoreOf "head-batch" tri tem neg)
  else if mode = "tail-batch" then do
    let _ ← negativeSample.size0
    let neg ← negativeSample.asTensor
    let tri ← sampleTriple.asTensor
    let _ ← sampleTem.size0
    let tem ← sampleTem.asTensor
    Except.ok (scoreOf "tail-batch" tri tem neg)
  else
    Except.error ("mode " ++ mode ++ " not supported")

/-- Elementwise `score += filter_bias`. -/
def addBias (score bias : List (List ℝ)) : List (List ℝ) :=
  List.zipWith (List.zipWith (· + ·)) score bias

/-- Models lines 469-470 of `test_step`:
`score = model((positive_sample, negative_sample), mode)` followed by
`score += filter_bias`. The call passes the tuple
`(positive_sample, negative_sample)` as the first positional argument
(`sample_triple`) and the mode string as the second (`sample_tem`), so
`negative_sample` stays None and `mode` stays at its default `single`. -/
def testStepScore
    (scoreOf : String → List (List ℤ) → List (List ℤ) → List (List ℤ) → List (List ℝ))
    (positiveSample negativeSample : PyVal) (mode : String)
    (filterBias : List (List ℝ)) : Except String (List (List ℝ)) :=
  (forwardModel scoreOf (PyVal.pair positiveSample negativeSample) (PyVal.str mode)
    PyVal.pynone "single").map (fun score => addBias score filterBias)

theorem zipWith_mul_assoc (h r t : List ℚ) :
    List.zipWith (· * ·) h (List.zipWith (· * ·) r t) =
      List.zipWith (· * ·) (List.zipWith (· * ·) h r) t := by
  induction h generalizing r t with
  | nil => simp
  | cons a as iha =>
    cases r with
    | nil => simp
    | cons b bs =>
      cases t with
      | nil => simp
      | cons c cs =>
        simp only [List.zipWith_cons_cons, List.cons.injEq]
        exact ⟨(mul_assoc a b c).symm, iha bs cs⟩

theorem complex_assemble_eq (reH imH reR imR reT imT : List ℚ) :
    List.zipWith (· + ·)
      (List.zipWith (· * ·) reH
        (List.zipWith (· + ·) (List.zipWith (· * ·) reR reT) (List.zipWith (· * ·) imR imT)))
      (List.zipWith (· * ·) imH
        (List.zipWith (· - ·) (List.zipWith (· * ·) reR imT) (List.zipWith (· * ·) imR reT))) =
    List.zipWith (· + ·)
      (List.zipWith (· * ·)
        (List.zipWith (· - ·) (List.zipWith (· * ·) reH reR) (List.zipWith (· * ·) imH imR)) reT)
      (List.zipWith (· * ·)
        (List.zipWith (· + ·) (List.zipWith (· * ·) reH imR) (List.zipWith (· * ·) imH reR)) imT) := by
  induction reH generalizing imH reR imR reT imT with
  | nil => simp
  | cons a as iha =>
    cases imH with
    | nil => simp
    | cons b bs =>
      cases reR with
      | nil => simp
      | cons c cs =>
        cases imR with
        | nil => simp
        | cons d ds =>
          cases reT with
          | nil => simp
          | cons e es =>
            cases imT with
            | nil => simp
            | cons f fs =>
              simp only [List.zipWith_cons_cons, List.cons.injEq]
              exact ⟨by ring, iha bs cs ds es fs⟩

/-- C4: for every fixed triple of embedding rows, the DistMult head-batch
formula `head * (relation * tail)` scores identically to the tail-batch
formula `(head * relation) * tail`, and the ComplEx head-batch assembly
(relation with tail first, then head) scores identically to the tail-batch
assembly (head with relation first, then tail), over exact arithmetic. -/
theorem distmult_complex_mode_commute (head relation tail : List ℚ) :
    DistMult head relation tail "head-batch" = DistMult head relation tail "tail-batch" ∧
    ComplEx head relation tail "head-batch" = ComplEx head relation tail "tail-batch" := by
  constructor
  · unfold DistMult
    rw [if_pos rfl, if_neg (by decide)]
    rw [zipWith_mul_assoc]
  · unfold ComplEx
    rw [if_pos rfl, if_neg (by decide)]
    exact congrArg List.sum (complex_assemble_eq _ _ _ _ _ _)

theorem norm3Sum_nonneg (t : List (List ℝ)) : 0 ≤ norm3Sum t := by
  apply List.sum_nonneg
  intro x hx
  simp only [norm3Sum, List.mem_map] at hx
  obtain ⟨row, _, rfl⟩ := hx
  apply List.sum_nonneg
  intro y hy
  simp only [List.mem_map] at hy
  obtain ⟨z, _, rfl⟩ := hy
  positivity

theorem tableNorm3_nonneg (t : List (List ℝ)) : 0 ≤ tableNorm3 t :=
  Real.rpow_nonneg (norm3Sum_nonneg t) _

theorem scalarNorm3_of_nonneg {x : ℝ} (hx : 0 ≤ x) : scalarNorm3 x = x := by
  unfold scalarNorm3
  rw [abs_of_nonneg hx, ← Real.rpow_natCast x 3, ← Real.rpow_mul hx]
  norm_num

/-- C10: the doubly-nested cubic norm used by the relation regularizer,
`relation_embedding.norm(p=3).norm(p=3) ** 3`, equals the single cubic norm
`relation_embedding.norm(p=3) ** 3`, because the 3-norm of the non-negative
scalar produced by the first full reduction is that scalar itself; the
flagged double norm is a no-op. -/
theorem relation_double_norm_noop (relationEmbedding : List (List ℝ)) :
    scalarNorm3 (tableNorm3 relationEmbedding) = tableNorm3 relationEmbedding ∧
    scalarNorm3 (tableNorm3 relationEmbedding) ^ 3 = tableNorm3 relationEmbedding ^ 3 := by
  have h := scalarNorm3_of_nonneg (tableNorm3_nonneg relationEmbedding)
  exact ⟨h, by rw [h]⟩

/-- C3 (counter-evaluation): on a batch of one example with subsampling
weight 1, positive logsigmoid score -1, and reduced negative score -1, the
uni_weight branch of `train_step` returns loss -1 while the weighted branch
returns loss +1: the two branches do not average the same signed
per-example quantity, because the source omits the negation in the
uni_weight branch. -/
theorem train_step_uni_weight_sign_flip :
    lossAssembly true [(1 : ℚ)] [-1] [-1] = -1 ∧
    lossAssembly false [(1 : ℚ)] [-1] [-1] = 1 ∧
    lossAssembly true [(1 : ℚ)] [-1] [-1] ≠ lossAssembly false [(1 : ℚ)] [-1] [-1] := by
  refine ⟨by norm_num [lossAssembly, listMean, weightedSum],
    by norm_num [lossAssembly, listMean, weightedSum],
    by norm_num [lossAssembly, listMean, weightedSum]⟩

/-- C9: KGEModel construction raises a ValueError exactly when the model
name lies outside the seven supported identifiers, or the name is RotatE
without double-width entity embeddings or with double-width relation
embeddings, or the name is ComplEx without both embeddings double-width;
every violation is raised by the constructor itself. -/
theorem init_validation_iff (modelName : String) (dee dre dte : Bool) :
    isError (initCheck modelName dee dre dte) = true ↔
      (modelName ∉ supportedModels ∨
        (modelName = "RotatE" ∧ (dee = false ∨ dre = true)) ∨
        (modelName = "ComplEx" ∧ (dee = false ∨ dre = false))) := by
  cases dee <;> cases dre <;>
    (unfold initCheck; split_ifs with h1 h2 h3 <;> simp_all [isError])

/-- C1: the scoring call of `test_step`,
`score = model((positive_sample, negative_sample), mode)`, binds the tuple
to the `sample_triple` parameter and the mode string to the `sample_tem`
parameter of forward, leaving the corruption mode at its default `single`;
the first operation of the single branch, `sample_triple.size(0)`, then
raises an AttributeError on the tuple, for every batch and in both
corruption directions, so no score (and no filter_bias addition) is ever
produced. -/
theorem test_step_forward_call_crashes
    (scoreOf : String → List (List ℤ) → List (List ℤ) → List (List ℤ) → List (List ℝ))
    (positiveSample negativeSample : PyVal) (mode : String)
    (filterBias : List (List ℝ)) :
    testStepScore scoreOf positiveSample negativeSample mode filterBias =
      Except.error "AttributeError: tuple object has no attribute size" := rfl

theorem map_div_addAt {er : ℝ} (hne : er ≠ 0) (i : ℕ) (l : List ℝ) :
    (addAt (2 * er) i l).map (fun r => r / (er / Real.pi)) =
      addAt (2 * Real.pi) i (l.map (fun r => r / (er / Real.pi))) := by
  induction l generalizing i with
  | nil => cases i <;> rfl
  | cons x xs ih =>
    cases i with
    | zero =>
      simp only [addAt, List.map_cons]
      congr 1
      have hpi := Real.pi_ne_zero
      field_simp
      ring
    | succ n =>
      simp only [addAt, List.map_cons, ih]

theorem map_cos_addAt_two_pi (i : ℕ) (l : List ℝ) :
    (addAt (2 * Real.pi) i l).map Real.cos = l.map Real.cos := by
  induction l generalizing i with
  | nil => cases i <;> rfl
  | cons x xs ih =>
    cases i with
    | zero => simp only [addAt, List.map_cons, Real.cos_add_two_pi]
    | succ n => simp only [addAt, List.map_cons, ih]

theorem map_sin_addAt_two_pi (i : ℕ) (l : List ℝ) :
    (addAt (2 * Real.pi) i l).map Real.sin = l.map Real.sin := by
  induction l generalizing i with
  | nil => cases i <;> rfl
  | cons x xs ih =>
    cases i with
    | zero => simp only [addAt, List.map_cons, Real.sin_add_two_pi]
    | succ n => simp only [addAt, List.map_cons, ih]

/-- C5: for every head, relation and tail embedding row and both corruption
modes, adding `2 * embedding_range` (that is, 2 pi times the phase divisor
`embedding_range / pi`) to any single component of the raw relation
embedding leaves the RotatE score unchanged, by 2-pi-periodicity of the
cosine and sine applied to the resulting phase. -/
theorem rotate_phase_wraparound (gamma er : ℝ) (head relation tail : List ℝ)
    (mode : String) (i : ℕ) (hne : er ≠ 0) :
    RotatE gamma er head (addAt (2 * er) i relation) tail mode =
      RotatE gamma er head relation tail mode := by
  simp only [RotatE, map_div_addAt hne, map_cos_addAt_two_pi, map_sin_addAt_two_pi]

/-- Witness for C5 at a concrete input: embedding range 1, a one-component
relation embedding modified at position 0. -/
theorem rotate_phase_wraparound_witness :
    RotatE 1 1 [1, 2] (addAt (2 * 1) 0 [0]) [3, 4] "head-batch" =
      RotatE 1 1 [1, 2] [0] [3, 4] "head-batch" :=
  rotate_phase_wraparound 1 1 [1, 2] [0] [3, 4] "head-batch" 0 one_ne_zero

/-- C6: when the regularization coefficient is nonzero, the training loss
is the assembled sample loss plus exactly
`coefficient * (entity.norm(3) ** 3 + relation.norm(3).norm(3) ** 3)`;
when the coefficient is zero no term is added, so the loss is independent
of the contents of the entity and relation embedding tables. -/
theorem train_step_regularization_toggle (uniWeight : Bool) (w ps ns : List ℝ)
    (reg : ℝ) (entityTable relationTable otherEntityTable otherRelationTable : List (List ℝ)) :
    (reg ≠ 0 → trainStepLoss uniWeight w ps ns reg entityTable relationTable =
      lossAssembly uniWeight w ps ns +
        reg * (tableNorm3 entityTable ^ 3 + scalarNorm3 (tableNorm3 relationTable) ^ 3)) ∧
    (reg = 0 → trainStepLoss uniWeight w ps ns reg entityTable relationTable =
      trainStepLoss uniWeight w ps ns reg otherEntityTable otherRelationTable) := by
  constructor
  · intro h
    simp [trainStepLoss, h]
  · intro h
    simp [trainStepLoss, h]

/-- Witness for C6 at concrete inputs: coefficient 1 adds exactly the
regularizer of the tables [[2]] and [[3]]; coefficient 0 makes the loss
independent of replacing those tables by [[5]] and [[7]]. -/
theorem train_step_regularization_toggle_witness :
    ((1 : ℝ) ≠ 0 ∧
      trainStepLoss true [] [] [] 1 [[2]] [[3]] =
        lossAssembly true ([] : List ℝ) [] [] +
          1 * (tableNorm3 [[2]] ^ 3 + scalarNorm3 (tableNorm3 [[3]]) ^ 3)) ∧
    ((0 : ℝ) = 0 ∧
      trainStepLoss true [] [] [] 0 [[2]] [[3]] = trainStepLoss true [] [] [] 0 [[5]] [[7]]) :=
  ⟨⟨one_ne_zero,
      (train_step_regularization_toggle true [] [] [] 1 [[2]] [[3]] [[5]] [[7]]).1 one_ne_zero⟩,
    ⟨rfl, (train_step_regularization_toggle true [] [] [] 0 [[2]] [[3]] [[5]] [[7]]).2 rfl⟩⟩

theorem matchPositions_length_count (l : List ℕ) (e : ℕ) :
    (matchPositions l e).length = l.count e := by
  induction l with
  | nil => rfl
  | cons x xs ih =>
    by_cases h : x = e
    · subst h
      simp [matchPositions, ih]
    · simp [matchPositions, h, ih, List.count_cons_of_ne (fun he => h he.symm)]

theorem sorted_argsortDesc (score : List ℚ) :
    (argsortDesc score).Sorted (rankLE score) :=
  List.sorted_insertionSort _ _

theorem perm_argsortDesc (score : List ℚ) :
    List.Perm (argsortDesc score) (List.range score.length) :=
  List.perm_insertionSort _ _

theorem nodup_argsortDesc (score : List ℚ) : (argsortDesc score).Nodup :=
  (perm_argsortDesc score).nodup_iff.mpr (List.nodup_range _)

theorem count_argsortDesc (score : List ℚ) (e : ℕ) (he : e < score.length) :
    (argsortDesc score).count e = 1 := by
  rw [(perm_argsortDesc score).count_eq]
  exact List.count_eq_one_of_mem (List.nodup_range _) (List.mem_range.mpr he)

theorem argsortDesc_isDescArgsort (score : List ℚ) :
    isDescArgsort score (argsortDesc score) := by
  refine ⟨perm_argsortDesc score, ?_⟩
  refine (sorted_argsortDesc score).imp ?_
  rintro a b (hr | ⟨heq, _⟩)
  · exact le_of_lt hr
  · exact le_of_eq heq.symm

/-- C2 (counterexample): on the score row [1, 1], where the two candidate
entities tie, the output [1, 0] satisfies everything the source's unstable
`torch.argsort(descending = True)` guarantees, yet violates the total
ordering that resolves equal scores by ascending entity id; so the program
does not rank via the deterministic tie-by-entity-id ordering the claim
asserts. -/
theorem test_step_ranking_tie_order_unspecified :
    isDescArgsort [1, 1] [1, 0] ∧
    ¬ List.Pairwise
      (fun i j => keyOf [1, 1] j < keyOf [1, 1] i ∨
        (keyOf [1, 1] i = keyOf [1, 1] j ∧ i < j))
      [1, 0] := by
  constructor
  · constructor
    · decide
    · decide
  · intro hp
    rcases List.pairwise_cons.mp hp with ⟨hrel, _⟩
    rcases hrel 0 (by decide) with hlt | ⟨_, hid⟩
    · exact absurd hlt (by decide)
    · exact absurd hid (by decide)

/-- C2 (amended): for every score row, every sort result satisfying the
contract of the unstable descending argsort of the source (a permutation
of all candidate entity ids ordered by non-increasing score, tie order
unspecified), and every true entity id that is a valid candidate index,
the true entity occupies exactly one position in the sorted order, so the
uniqueness assertion `ranking.size(0) == 1` of `test_step` holds for every
example; the tie-by-entity-id resolution of the original claim is not
guaranteed by the program (see the counterexample). -/
theorem test_step_ranking_unique_for_any_argsort (score : List ℚ) (p : List ℕ) (e : ℕ)
    (hp : isDescArgsort score p) (he : e < score.length) :
    (matchPositions p e).length = 1 := by
  rw [matchPositions_length_count, hp.1.count_eq]
  exact List.count_eq_one_of_mem (List.nodup_range _) (List.mem_range.mpr he)

/-- Witness for the amended C2: a conforming argsort output of the row
[1, 1, 2] whose tied entities 0 and 1 appear in non-id order. -/
theorem test_step_ranking_unique_for_any_argsort_witness :
    isDescArgsort [1, 1, 2] [2, 1, 0] ∧ (matchPositions [2, 1, 0] 0).length = 1 :=
  ⟨⟨by decide, by decide⟩,
    test_step_ranking_unique_for_any_argsort [1, 1, 2] [2, 1, 0] 0
      ⟨by decide, by decide⟩ (by decide)⟩

theorem matchPositions_eq_nil_of_count_zero {l : List ℕ} {e : ℕ} (h : l.count e = 0) :
    matchPositions l e = [] := by
  have hl := matchPositions_length_count l e
  rw [h] at hl
  exact List.length_eq_zero.mp hl

theorem matchPositions_eq_singleton {l : List ℕ} {e : ℕ} (h : l.count e = 1) :
    matchPositions l e = [l.indexOf e] := by
  induction l with
  | nil => simp at h
  | cons x xs ih =>
    by_cases hx : x = e
    · subst hx
      have h0 : xs.count x = 0 := by
        rw [List.count_cons_self] at h
        omega
      simp [matchPositions, matchPositions_eq_nil_of_count_zero h0, List.indexOf_cons_self]
    · have h1 : xs.count e = 1 := by
        rw [List.count_cons_of_ne (fun he => hx he.symm)] at h
        exact h
      simp [matchPositions, hx, ih h1, List.indexOf_cons_ne _ hx]

theorem rankingItem_eq {ex : EvalExample} (h : ex.target < ex.score.length) :
    rankingItem ex = some (exampleRank ex) := by
  unfold rankingItem exampleRank
  rw [matchPositions_eq_singleton (count_argsortDesc ex.score ex.target h)]

theorem evalLogs_eq (exs : List EvalExample)
    (h : ∀ ex ∈ exs, ex.target < ex.score.length) :
    evalLogs exs = some (exs.map (fun ex => mkLog (exampleRank ex))) := by
  induction exs with
  | nil => rfl
  | cons ex rest ih =>
    have h1 := h ex (List.mem_cons_self ex rest)
    have h2 := ih (fun e he => h e (List.mem_cons_of_mem _ he))
    simp [evalLogs, rankingItem_eq h1, h2]

theorem aggregateLogs_map (exs : List EvalExample) :
    aggregateLogs (exs.map (fun ex => mkLog (exampleRank ex))) = specAggregate exs := by
  unfold aggregateLogs specAggregate
  simp only [List.map_map, List.length_map]
  have hm1 : MetricLog.mrr ∘ (fun ex => mkLog (exampleRank ex)) =
      fun ex : EvalExample => 1 / (exampleRank ex : ℚ) := rfl
  have hm2 : MetricLog.mr ∘ (fun ex => mkLog (exampleRank ex)) =
      fun ex : EvalExample => (exampleRank ex : ℚ) := rfl
  have hm3 : MetricLog.h1 ∘ (fun ex => mkLog (exampleRank ex)) =
      fun ex : EvalExample => if exampleRank ex ≤ 1 then (1 : ℚ) else 0 := rfl
  have hm4 : MetricLog.h3 ∘ (fun ex => mkLog (exampleRank ex)) =
      fun ex : EvalExample => if exampleRank ex ≤ 3 then (1 : ℚ) else 0 := rfl
  have hm5 : MetricLog.h10 ∘ (fun ex => mkLog (exampleRank ex)) =
      fun ex : EvalExample => if exampleRank ex ≤ 10 then (1 : ℚ) else 0 := rfl
  rw [hm1, hm2, hm3, hm4, hm5]

/-- C8: for every pair of head-direction and tail-direction example lists
whose true entities are valid candidate indices and which are not both
empty, the metrics of `test_step` are defined, and each aggregate metric is
the unweighted arithmetic mean, pooled over all examples of both corruption
directions, of the per-example values 1/rank, rank, and the indicators
rank at most 1, rank at most 3, rank at most 10, where rank is the
1-indexed position of the true entity in the descending sort. -/
theorem test_step_metrics_pooled_mean (headExamples tailExamples : List EvalExample)
    (hlt : ∀ ex ∈ headExamples ++ tailExamples, ex.target < ex.score.length)
    (hne : headExamples ++ tailExamples ≠ []) :
    testStepMetrics headExamples tailExamples =
      some (specAggregate (headExamples ++ tailExamples)) := by
  unfold testStepMetrics
  rw [evalLogs_eq _ hlt]
  have hempty : ((headExamples ++ tailExamples).map
      (fun ex => mkLog (exampleRank ex))).isEmpty = false := by
    cases hcase : headExamples ++ tailExamples with
    | nil => exact absurd hcase hne
    | cons a as => simp
  simp only [hempty, Bool.false_eq_true, if_false, aggregateLogs_map]

/-- Witness for C8 on concrete examples: one head-direction example with
three candidates and one tail-direction example with two candidates. -/
theorem test_step_metrics_pooled_mean_witness :
    testStepMetrics [⟨[3, 1, 2], 0⟩] [⟨[1, 2], 1⟩] =
      some (specAggregate ([⟨[3, 1, 2], 0⟩] ++ [⟨[1, 2], 1⟩])) :=
  test_step_metrics_pooled_mean [⟨[3, 1, 2], 0⟩] [⟨[1, 2], 1⟩]
    (by intro ex hex; fin_cases hex <;> norm_num)
    (by simp)

/-- C7: for every negative-score matrix and every row, the per-example
negative reduction of `train_step` equals, with adversarial sampling on,
the sum over the negative axis of the (detached) softmax of
`score * adversarial_temperature` times `logsigmoid(-score)`, and with it
off, the mean over the negative axis of `logsigmoid(-score)`. -/
theorem negative_reduction_policies (temperature : ℝ) (m : List (List ℝ)) (i : ℕ)
    (row : List ℝ) (h : m[i]? = some row) :
    (negScoreReduce true temperature m)[i]? =
      some ((List.zipWith (· * ·) (softmaxList (row.map (· * temperature)))
        (row.map (fun x => logsigmoid (-x)))).sum) ∧
    (negScoreReduce false temperature m)[i]? =
      some ((row.map (fun x => logsigmoid (-x))).sum / (row.length : ℝ)) := by
  constructor
  · simp [negScoreReduce, sumDim1, matMul, detachMat, softmaxDim1, matMap,
      List.getElem?_map, List.getElem?_zipWith, h, List.map_map, Function.comp_def]
  · simp [negScoreReduce, meanDim1, matMap, List.getElem?_map, h, List.map_map,
      Function.comp_def]

/-- Witness for C7 at temperature 1 on the one-row matrix [[0]]. -/
theorem negative_reduction_policies_witness :
    (negScoreReduce true 1 [[0]])[0]? =
      some ((List.zipWith (· * ·) (softmaxList ([(0 : ℝ)].map (· * 1)))
        ([(0 : ℝ)].map (fun x => logsigmoid (-x)))).sum) ∧
    (negScoreReduce false 1 [[0]])[0]? =
      some (([(0 : ℝ)].map (fun x => logsigmoid (-x))).sum / (([(0 : ℝ)].length : ℝ))) :=
  negative_reduction_policies 1 [[0]] 0 [0] rfl
